import Mathlib

/-!
Verification of the tutorial scripts in oreilly_reactive_python_for_data.

The scripts build finite, synchronous observable pipelines with the rx
library.  A finite synchronous observable is modelled as the list of values
it delivers to the on_next callback followed by its terminal signal: either
a normal completion or an error (delivered to the on_error callback).
Python text is modelled at the character-list level; machine behaviour of
the relevant Python builtins (str.split, str.strip, str.lower, re.sub with
the character classes used here, os.walk) is embedded directly.
-/

namespace RxRepo

/-- The three observer callbacks of the rx protocol, as events. -/
inductive Ev (α : Type) where
  | onNext (a : α)
  | onError (e : String)
  | onCompleted
deriving DecidableEq, Repr

/-- A finite synchronous observable: the values pushed to on_next in order,
then either normal completion (err = none) or an error signal (err = some e)
delivered to on_error. -/
structure Obs (α : Type) where
  vals : List α
  err : Option String
deriving DecidableEq, Repr

/-- The event sequence a subscriber observes. -/
def eventsOf (o : Obs α) : List (Ev α) :=
  o.vals.map Ev.onNext ++ [match o.err with
    | none => Ev.onCompleted
    | some e => Ev.onError e]

/-- Observable.from_(iterable): emit the elements, then complete. -/
def fromList (l : List α) : Obs α := ⟨l, none⟩

/-- The map operator. -/
def mapO (f : α → β) (o : Obs α) : Obs β := ⟨o.vals.map f, o.err⟩

/-- The filter operator. -/
def filterO (p : α → Bool) (o : Obs α) : Obs α := ⟨o.vals.filter p, o.err⟩

/-- Helper for flat_map: splice the inner observables of the remaining
source values; an inner error terminates the stream with that error. -/
def flatMapGo (f : α → Obs β) : List α → Option String → Obs β
  | [], e => ⟨[], e⟩
  | a :: as, e =>
    match f a with
    | ⟨vs, some er⟩ => ⟨vs, some er⟩
    | ⟨vs, none⟩ =>
      let r := flatMapGo f as e
      ⟨vs ++ r.vals, r.err⟩

/-- The flat_map operator on finite synchronous observables. -/
def flatMapO (f : α → Obs β) (o : Obs α) : Obs β := flatMapGo f o.vals o.err

/-- The reduce operator without a seed: fold the emissions with the
accumulator, emit the single result on completion; an empty source is an
error, and an upstream error is passed through. -/
def reduceO (f : α → α → α) (o : Obs α) : Obs α :=
  match o.err with
  | some e => ⟨[], some e⟩
  | none =>
    match o.vals with
    | [] => ⟨[], some "Sequence contains no elements."⟩
    | x :: xs => ⟨[xs.foldl f x], none⟩

/-- The zip operator: pair values positionally; output ends when the
shorter source ends. -/
def zipO (f : α → β → γ) (o1 : Obs α) (o2 : Obs β) : Obs γ :=
  ⟨List.zipWith f o1.vals o2.vals, o1.err <|> o2.err⟩

/-- Observable.range(start, count): emit count integers starting at start. -/
def rangeO (start count : Nat) : Obs Nat :=
  fromList ((List.range count).map (start + ·))

/-! ## 5.3B_reduce.py -/

/-- The pipeline of 5.3B_reduce.py:
Observable.from_([4,76,22,66,881,13,35]).filter(i < 100).reduce(total + value). -/
def pipeline53B : Obs Int :=
  reduceO (fun total value => total + value)
    (filterO (fun i => i < 100)
      (fromList [4, 76, 22, 66, 881, 13, 35]))

/-! ## 6.2C_zip.py -/

/-- The letters source of 6.2C_zip.py. -/
def letters62C : List String := ["A", "B", "C", "D", "E", "F"]

/-- The pair formatter of 6.2C_zip.py: "{0}-{1}".format(l, n). -/
def fmtPair (l : String) (n : Nat) : String := l ++ "-" ++ toString n

/-- The pipeline of 6.2C_zip.py: zip the six letters with
Observable.range(1,5) using the pair formatter. -/
def pipeline62C : Obs String :=
  zipO fmtPair (fromList letters62C) (rangeO 1 5)

/-! ## Python text builtins, at the character-list level -/

/-- A line of text, as its characters. -/
abbrev Line := List Char

/-- Helper for str.split(): accumulate the current token (reversed) while
scanning; whitespace ends a token, empty tokens are discarded. -/
def splitWSAux : List Char → List Char → List (List Char)
  | [], acc => if acc.isEmpty then [] else [acc.reverse]
  | c :: cs, acc =>
    if c.isWhitespace then
      (if acc.isEmpty then [] else [acc.reverse]) ++ splitWSAux cs []
    else
      splitWSAux cs (c :: acc)

/-- Python str.split() with no argument: split on runs of whitespace,
discarding empty tokens. -/
def splitWS (l : List Char) : List (List Char) := splitWSAux l []

/-- The character class of the regex \w (ASCII fragment): letters, digits
and the underscore. -/
def isWordChar (c : Char) : Bool := c.isAlphanum || c == '_'

/-- re.sub(r'[^\w]', '', w): delete every character not in \w. -/
def subNonWord (t : List Char) : List Char := t.filter isWordChar

/-- re.sub(r'[^\w\s]', '', w): delete every character that is neither in \w
nor whitespace. -/
def subNonWordKeepWS (t : List Char) : List Char :=
  t.filter (fun c => isWordChar c || c.isWhitespace)

/-- Python str.strip(): drop leading and trailing whitespace. -/
def stripL (l : List Char) : List Char :=
  ((l.dropWhile Char.isWhitespace).reverse.dropWhile Char.isWhitespace).reverse

/-! ## File access

A file system maps a file name to its lines when the file can be opened.
Python open() raises an OSError when it cannot; the Except models the
raised exception, which propagates to the caller unless some observable
machinery catches it. -/

/-- A file system: file name to lines, none when the file cannot be opened. -/
abbrev FileSys := String → Option (List Line)

/-- Python open(name): the lines of the file, or a raised error. -/
def openFile (fs : FileSys) (name : String) : Except String (List Line) :=
  match fs name with
  | some lines => Except.ok lines
  | none => Except.error ("No such file or directory: " ++ name)

/-! ## 7.1A_reading_text_file.py -/

/-- The observable part of read_lines, given the already-opened file:
from_(file).map(l.strip()).filter(l != ""). -/
def readLinesObs (file : List Line) : Obs Line :=
  filterO (fun l => !l.isEmpty) (mapO stripL (fromList file))

/-- read_lines of 7.1A_reading_text_file.py: the file is opened eagerly,
before any observable exists, so an open failure is a raised exception. -/
def read_lines (fs : FileSys) (file_name : String) : Except String (Obs Line) :=
  (openFile fs file_name).map readLinesObs

/-! ## 7.3A_reading_words_from_text_file.py and the 7.3B/7.3C copy -/

/-- The observable part of words_from_file (7.3A variant), given the opened
file: from_(file).flat_map(from_(s.split())).map(re.sub non-word chars)
.filter(w != "").map(w.lower()). -/
def wordsObsA (file : List Line) : Obs Line :=
  mapO (List.map Char.toLower)
    (filterO (fun w => !w.isEmpty)
      (mapO subNonWord
        (flatMapO (fun s => fromList (splitWS s)) (fromList file))))

/-- The observable part of the 7.3B/7.3C copy of words_from_file, whose
substitution is re.sub(r'[^\w\s]', '', w) instead. -/
def wordsObsB (file : List Line) : Obs Line :=
  mapO (List.map Char.toLower)
    (filterO (fun w => !w.isEmpty)
      (mapO subNonWordKeepWS
        (flatMapO (fun s => fromList (splitWS s)) (fromList file))))

/-- words_from_file of 7.3A_reading_words_from_text_file.py: the file is
opened eagerly, so an open failure is a raised exception. -/
def words_from_file (fs : FileSys) (file_name : String) : Except String (Obs Line) :=
  (openFile fs file_name).map wordsObsA

/-- The 7.3B/7.3C copy of words_from_file. -/
def words_from_fileB (fs : FileSys) (file_name : String) : Except String (Obs Line) :=
  (openFile fs file_name).map wordsObsB

/-! ## 7.1C_recursive_file_iteration.py

The directory tree is a rose tree of named entries; the walker is os.walk
in top-down order: for each directory, one (root, dirnames, filenames)
triple, then the triples of each subdirectory in order. -/

/-- An entry of a directory: a plain file or a subdirectory with its
entries. -/
inductive FSEntry where
  | file (name : String)
  | dir (name : String) (children : List FSEntry)

/-- os.path.join for one component. -/
def pjoin (root name : String) : String := root ++ "/" ++ name

/-- The subdirectory names of a directory's entry list (os.walk dirnames). -/
def dirNames (cs : List FSEntry) : List String :=
  cs.filterMap fun c =>
    match c with
    | .dir n _ => some n
    | .file _ => none

/-- The plain file names of a directory's entry list (os.walk filenames). -/
def fileNames (cs : List FSEntry) : List String :=
  cs.filterMap fun c =>
    match c with
    | .file n => some n
    | .dir _ _ => none

mutual

/-- os.walk triples contributed by a single entry. -/
def walkE (root : String) : FSEntry → List (String × List String × List String)
  | .file _ => []
  | .dir n sub => (pjoin root n, dirNames sub, fileNames sub) :: walkL (pjoin root n) sub

/-- os.walk triples contributed by a list of entries, in order. -/
def walkL (root : String) : List FSEntry → List (String × List String × List String)
  | [] => []
  | c :: cs => walkE root c ++ walkL root cs

end

/-- os.walk(folder) where cs are the entries of folder: the triple of the
starting folder first, then the triples of the subtrees in order. -/
def walk (folder : String) (cs : List FSEntry) : List (String × List String × List String) :=
  (folder, dirNames cs, fileNames cs) :: walkL folder cs

/-- The values pushed by one os.walk triple in emit_files_recursively:
the joined directory paths first, then the joined file paths. -/
def triplePaths (t : String × List String × List String) : List String :=
  t.2.1.map (pjoin t.1) ++ t.2.2.map (pjoin t.1)

/-- The on_next values of recursive_files_in_directory(folder): for every
os.walk triple, the joined directory paths then the joined file paths. -/
def walkEmits (folder : String) (cs : List FSEntry) : List String :=
  (walk folder cs).flatMap triplePaths

/-- recursive_files_in_directory(folder) as an observable: the walk
emissions, then on_completed. -/
def recursiveFilesInDirectory (folder : String) (cs : List FSEntry) : Obs String :=
  ⟨walkEmits folder cs, none⟩

mutual

/-- The paths of the plain files inside a single entry's subtree. -/
def filesE (root : String) : FSEntry → List String
  | .file n => [pjoin root n]
  | .dir n sub => filesL (pjoin root n) sub

/-- The paths of the plain files inside a list of entries' subtrees. -/
def filesL (root : String) : List FSEntry → List String
  | [] => []
  | c :: cs => filesE root c ++ filesL root cs

end

mutual

/-- The paths of the directories inside a single entry's subtree,
the entry's own path included when it is a directory. -/
def dirsE (root : String) : FSEntry → List String
  | .file _ => []
  | .dir n sub => pjoin root n :: dirsL (pjoin root n) sub

/-- The paths of the directories inside a list of entries' subtrees. -/
def dirsL (root : String) : List FSEntry → List String
  | [] => []
  | c :: cs => dirsE root c ++ dirsL root cs

end

/-- The values one os.walk triple of a directory contributes: its
subdirectory paths then its file paths. -/
def levelPaths (root : String) (cs : List FSEntry) : List String :=
  (dirNames cs).map (pjoin root) ++ (fileNames cs).map (pjoin root)

/-- The values contributed by the walk triples of a list of entries'
subtrees. -/
def emitsL (root : String) (cs : List FSEntry) : List String :=
  (walkL root cs).flatMap triplePaths

/-- The suffix filter of the 7.1C pipeline: f.endswith('.txt'), at the
character level. -/
def endsTxt (p : String) : Bool := ".txt".toList.isSuffixOf p.toList

/-- The walker filtered by the suffix filter, as in the 7.1C pipeline. -/
def txtPipeline (folder : String) (cs : List FSEntry) : Obs String :=
  filterO endsTxt (recursiveFilesInDirectory folder cs)

/-- Opening a matched file inside the 7.1C flat_map selector:
from_(open(f)) on success; a raised exception inside the selector is routed
to on_error by flat_map, hence an error-terminated observable. -/
def openAsObs (fs : FileSys) (f : String) : Obs Line :=
  match openFile fs f with
  | Except.ok lines => fromList lines
  | Except.error e => ⟨[], some e⟩

/-- The full 7.1C pipeline: walker, suffix filter, flat_map over the file
lines, strip, drop empty lines.  It is a total function into an
observable: no exception reaches the caller. -/
def pipeline71C (fs : FileSys) (folder : String) (cs : List FSEntry) : Obs Line :=
  filterO (fun l => !l.isEmpty)
    (mapO stripL
      (flatMapO (openAsObs fs) (txtPipeline folder cs)))

/-! ## 7.3B_counting_word_occurrences.py and 7.3C

group_by on a finite synchronous source yields one group per distinct key
in order of first occurrence; each group holds the source elements with
that key.  word_counter flat_maps every group to the single pair
(group key, group count); to_dict builds a Python dict from the pairs,
later pairs overwriting earlier ones. -/

/-- The distinct keys of a token sequence in order of first occurrence,
given the keys already seen. -/
def firstOccurAux [DecidableEq α] (seen : List α) : List α → List α
  | [] => []
  | x :: xs => if x ∈ seen then firstOccurAux seen xs else x :: firstOccurAux (x :: seen) xs

/-- The distinct keys of a token sequence in order of first occurrence:
the order in which group_by opens its groups. -/
def firstOccur [DecidableEq α] (l : List α) : List α := firstOccurAux [] l

/-- group_by(lambda word: word) on a finite synchronous source: one group
per distinct key in first-occurrence order, holding the elements with
that key. -/
def groupByKey [DecidableEq α] (l : List α) : List (α × List α) :=
  (firstOccur l).map fun k => (k, l.filter (fun x => x == k))

/-- word_counter of 7.3B: group by the word, then flat_map every group to
the pair (group key, group count). -/
def word_counter [DecidableEq α] (l : List α) : List (α × Nat) :=
  (groupByKey l).map fun g => (g.1, g.2.length)

/-- A Python dict built from key/value pairs: lookup returns the value of
the last pair with the key, none when no pair has it. -/
def dictOf [DecidableEq α] (pairs : List (α × β)) : α → Option β :=
  fun k => pairs.foldl (fun acc p => if p.1 == k then some p.2 else acc) none

/-- word_counter_as_dict of 7.3C: to_dict(t[0], t[1]) over word_counter. -/
def word_counter_as_dict [DecidableEq α] (l : List α) : α → Option Nat :=
  dictOf (word_counter l)

/-! ## The example scripts as statement sequences

Each script is modelled by its sequence of top-level effectful statements,
keeping only what matters for the blocking discipline: whether a statement
subscribes to a timer-driven (interval-based) observable, subscribes to
some other observable, sleeps, or blocks on reading standard input. -/

/-- The statement kinds of an example script that matter for blocking. -/
inductive PyStmt where
  | subTimer
  | subOther
  | sleepCall
  | inputCall
  | otherStmt
deriving DecidableEq, Repr

/-- A script: its file name and its top-level statements in order. -/
structure Script where
  name : String
  stmts : List PyStmt

open PyStmt in
/-- Every example script of the repository, with its top-level statement
sequence. -/
def allScripts : List Script :=
  [ ⟨"4.1B_subscribing_to_an_observable.py", [subOther]⟩
  , ⟨"4.1C_subscribing_with_lambdas.py", [subOther]⟩
  , ⟨"4.2A_some_basic_operators.py", [subOther]⟩
  , ⟨"4.2B_range_and_just.py", [subOther, subOther]⟩
  , ⟨"4.3A_creating_observable_from_scratch.py", [subOther]⟩
  , ⟨"4.3C_unsubscribing.py", [subTimer, sleepCall, otherStmt, otherStmt, sleepCall]⟩
  , ⟨"4.4A_twitter_observable.py", [subOther]⟩
  , ⟨"5.1A_filter.py", [subOther]⟩
  , ⟨"5.1B_take.py", [subOther]⟩
  , ⟨"5.1C_take_while.py", [subOther]⟩
  , ⟨"5.2A_distinct.py", [subOther]⟩
  , ⟨"5.2B_distinct_with_mapping.py", [subOther]⟩
  , ⟨"5.2C_distinct_until_changed.py", [subOther, subOther]⟩
  , ⟨"5.3A_count.py", [subOther]⟩
  , ⟨"5.3B_reduce.py", [subOther]⟩
  , ⟨"5.4B_to_dict.py", [subOther, subOther]⟩
  , ⟨"6.1A_merge.py", [subOther]⟩
  , ⟨"6.1B_merge_interval.py", [subTimer, inputCall]⟩
  , ⟨"6.1D_merge_all_continued.py", [subOther]⟩
  , ⟨"6.2A_concat.py", [subOther]⟩
  , ⟨"6.2C_zip.py", [subOther]⟩
  , ⟨"6.3D_spacing_emissions.py", [subTimer, inputCall]⟩
  , ⟨"6.4A_grouping_into_lists.py", [subOther]⟩
  , ⟨"6.4B_grouping_length_counts.py", [subOther]⟩
  , ⟨"7.1A_reading_text_file.py", [subOther]⟩
  , ⟨"7.1B_reading_web_url.py", [subOther]⟩
  , ⟨"7.1C_recursive_file_iteration.py", [subOther]⟩
  , ⟨"7.2A_reading_sql_query.py", [subOther]⟩
  , ⟨"7.2C_merging_sql_queries.py", [subOther]⟩
  , ⟨"7.2D_writing_sql_updates.py", [subOther]⟩
  , ⟨"7.3A_reading_words_from_text_file.py", [subOther]⟩
  , ⟨"7.3B_counting_word_occurrences.py", [subOther]⟩
  , ⟨"7.3C_scheduling_reactive_word_counter.py", [subTimer, inputCall]⟩
  , ⟨"8.1A_connectableobservable.py", [subOther, subOther, otherStmt]⟩
  , ⟨"8.1B_sharing_observable.py", [subTimer, otherStmt, sleepCall, subTimer, inputCall]⟩
  , ⟨"8.1C_refcount.py", [subTimer, sleepCall, subTimer, inputCall]⟩
  , ⟨"9.2_using_observe_on.py", [subOther, subOther, subTimer, inputCall]⟩
  , ⟨"9.3_processing_emissions_in_parallel.py", [subOther, inputCall]⟩
  , ⟨"9.4_switch_map.py", [subTimer, inputCall]⟩
  , ⟨"test.py", [subOther, otherStmt, subOther]⟩ ]

/-- Whether a script subscribes to a timer-driven observable. -/
def usesTimer (s : Script) : Bool := s.stmts.contains PyStmt.subTimer

/-- Whether a statement blocks the main thread: a sleep or a blocking read
from standard input. -/
def isBlocking : PyStmt → Bool
  | .sleepCall => true
  | .inputCall => true
  | _ => false

/-- Whether every subscription to a timer-driven observable is followed,
later in the script, by a blocking statement. -/
def blocksAfterTimerSub : List PyStmt → Bool
  | [] => true
  | .subTimer :: rest => rest.any isBlocking && blocksAfterTimerSub rest
  | _ :: rest => blocksAfterTimerSub rest

/-! ## Physical-line well-formedness (line continuations)

A Python statement spread over several physical lines must end every line
but the last with a backslash; joining the continuations must not leave a
logical line that begins with a dot, which Python rejects.  This models
the fragment of the grammar the operator-chain pipelines rely on. -/

/-- Whether a physical line ends with a line-continuation backslash. -/
def endsWithBackslash (l : Line) : Bool := l.getLast? == some '\\'

/-- Join line continuations: a line ending in a backslash is merged with
the logical line formed from the following physical lines. -/
def joinCont : List Line → List Line
  | [] => []
  | l :: rest =>
    if endsWithBackslash l then
      match joinCont rest with
      | [] => [l.dropLast]
      | m :: ms => (l.dropLast ++ m) :: ms
    else
      l :: joinCont rest

/-- Whether a logical line begins, after indentation, with a dot: such a
line is a Python syntax error at statement level. -/
def beginsWithDot (l : Line) : Bool :=
  (l.dropWhile (fun c => c == ' ')).head? == some '.'

/-- Whether the physical lines of a statement chain are well formed: after
joining continuations no logical line begins with a dot. -/
def chainWellFormed (physical : List Line) : Bool :=
  (joinCont physical).all fun l => !beginsWithDot l

/-- Lines 40 to 43 of 7.3C_scheduling_reactive_word_counter.py, as written
in the repository: the flat_map line lacks a trailing backslash. -/
def lines73C : List Line :=
  [ "Observable.interval(3000) \\".toList
  , "    .flat_map(lambda i: word_counter_as_dict(article_file))".toList
  , "    .distinct_until_changed() \\".toList
  , "    .subscribe(lambda word_ct_dict: print(word_ct_dict))".toList ]

/-- The same statement with the missing backslash restored on the flat_map
line. -/
def lines73Cfixed : List Line :=
  [ "Observable.interval(3000) \\".toList
  , "    .flat_map(lambda i: word_counter_as_dict(article_file)) \\".toList
  , "    .distinct_until_changed() \\".toList
  , "    .subscribe(lambda word_ct_dict: print(word_ct_dict))".toList ]


/-! ## Lemmas and claim theorems -/

open scoped List


theorem char_eq_iff_toNat {c d : Char} : c = d ↔ c.toNat = d.toNat := by
  constructor
  · intro h; rw [h]
  · intro h
    have h1 : Char.ofNat c.toNat = Char.ofNat d.toNat := by rw [h]
    rwa [Char.ofNat_toNat, Char.ofNat_toNat] at h1

theorem char_toNat_ofNat {n : Nat} (h : n.isValidChar) : (Char.ofNat n).toNat = n := by
  simp [Char.ofNat, dif_pos h, Char.ofNatAux, Char.toNat, UInt32.toNat, BitVec.toNat_ofNatLt]

theorem uint32_le_iff {a b : UInt32} : a ≤ b ↔ a.toNat ≤ b.toNat := by
  simp [UInt32.le_def, BitVec.le_def, UInt32.toNat]


theorem isUpper_iff {c : Char} : c.isUpper = true ↔ 65 ≤ c.toNat ∧ c.toNat ≤ 90 := by
  simp [Char.isUpper, uint32_le_iff, Char.toNat, UInt32.size]

theorem isLower_iff {c : Char} : c.isLower = true ↔ 97 ≤ c.toNat ∧ c.toNat ≤ 122 := by
  simp [Char.isLower, uint32_le_iff, Char.toNat, UInt32.size]

theorem isDigit_iff {c : Char} : c.isDigit = true ↔ 48 ≤ c.toNat ∧ c.toNat ≤ 57 := by
  simp [Char.isDigit, uint32_le_iff, Char.toNat, UInt32.size]

theorem isAlphanum_iff {c : Char} :
    c.isAlphanum = true ↔
      (48 ≤ c.toNat ∧ c.toNat ≤ 57) ∨ (65 ≤ c.toNat ∧ c.toNat ≤ 90) ∨
        (97 ≤ c.toNat ∧ c.toNat ≤ 122) := by
  simp [Char.isAlphanum, Char.isAlpha, isUpper_iff, isLower_iff, isDigit_iff]
  tauto

theorem isWhitespace_iff {c : Char} :
    c.isWhitespace = true ↔
      c.toNat = 32 ∨ c.toNat = 9 ∨ c.toNat = 13 ∨ c.toNat = 10 := by
  simp [Char.isWhitespace, char_eq_iff_toNat]
  omega

theorem toLower_toNat_of_upper {c : Char} (h1 : 65 ≤ c.toNat) (h2 : c.toNat ≤ 90) :
    c.toLower.toNat = c.toNat + 32 := by
  rw [Char.toLower]
  rw [if_pos ⟨h1, h2⟩]
  exact char_toNat_ofNat (Or.inl (by omega))

theorem toLower_eq_self_of_not_upper {c : Char} (h : ¬(65 ≤ c.toNat ∧ c.toNat ≤ 90)) :
    c.toLower = c := by
  rw [Char.toLower]
  exact if_neg h

theorem toLower_not_upper (c : Char) : c.toLower.isUpper = false := by
  by_cases h : 65 ≤ c.toNat ∧ c.toNat ≤ 90
  · have := toLower_toNat_of_upper h.1 h.2
    rw [Bool.eq_false_iff]
    intro hu
    have := isUpper_iff.mp hu
    omega
  · rw [toLower_eq_self_of_not_upper h]
    rw [Bool.eq_false_iff]
    intro hu
    exact h (isUpper_iff.mp hu)

theorem underscore_toNat : ('_' : Char).toNat = 95 := rfl

theorem isWordChar_iff {c : Char} :
    (c.isAlphanum || c == '_') = true ↔
      (48 ≤ c.toNat ∧ c.toNat ≤ 57) ∨ (65 ≤ c.toNat ∧ c.toNat ≤ 90) ∨
        (97 ≤ c.toNat ∧ c.toNat ≤ 122) ∨ c.toNat = 95 := by
  simp [isAlphanum_iff, beq_iff_eq, char_eq_iff_toNat]
  omega

theorem toLower_wordChar {c : Char} (h : (c.isAlphanum || c == '_') = true) :
    (c.toLower.isAlphanum || c.toLower == '_') = true := by
  rcases isWordChar_iff.mp h with h | h | h | h
  · rw [toLower_eq_self_of_not_upper (by omega)]; exact isWordChar_iff.mpr (by omega)
  · have := toLower_toNat_of_upper h.1 h.2
    exact isWordChar_iff.mpr (by omega)
  · rw [toLower_eq_self_of_not_upper (by omega)]; exact isWordChar_iff.mpr (by omega)
  · rw [toLower_eq_self_of_not_upper (by omega)]; exact isWordChar_iff.mpr (by omega)

theorem toLower_wordChar_not_ws {c : Char} (h : (c.isAlphanum || c == '_') = true) :
    c.toLower.isWhitespace = false := by
  rw [Bool.eq_false_iff]
  intro hw
  have hw2 := isWhitespace_iff.mp hw
  rcases isWordChar_iff.mp h with h | h | h | h
  · rw [toLower_eq_self_of_not_upper (by omega)] at hw2
    omega
  · have hup := toLower_toNat_of_upper h.1 h.2
    omega
  · rw [toLower_eq_self_of_not_upper (by omega)] at hw2
    omega
  · rw [toLower_eq_self_of_not_upper (by omega)] at hw2
    omega


open scoped List

theorem splitWSAux_mem : ∀ (l : List Char) (acc : List Char) (t : List Char),
    t ∈ splitWSAux l acc → (∀ c ∈ acc, c.isWhitespace = false) →
    t ≠ [] ∧ ∀ c ∈ t, c.isWhitespace = false
  | [], acc, t => by
    intro ht hacc
    rw [splitWSAux] at ht
    by_cases he : acc.isEmpty
    · simp [he] at ht
    · simp [he] at ht
      subst ht
      have hne : acc ≠ [] := by intro h0; subst h0; simp at he
      refine ⟨by simpa using hne, ?_⟩
      intro c hc
      exact hacc c (by simpa using hc)
  | c :: cs, acc, t => by
    intro ht hacc
    rw [splitWSAux] at ht
    by_cases hw : c.isWhitespace
    · rw [if_pos hw] at ht
      rcases List.mem_append.mp ht with h1 | h2
      · by_cases he : acc.isEmpty
        · simp [he] at h1
        · simp [he] at h1
          subst h1
          have hne : acc ≠ [] := by intro h0; subst h0; simp at he
          refine ⟨by simpa using hne, ?_⟩
          intro d hd
          exact hacc d (by simpa using hd)
      · exact splitWSAux_mem cs [] t h2 (by simp)
    · rw [if_neg hw] at ht
      refine splitWSAux_mem cs (c :: acc) t ht ?_
      intro d hd
      rcases List.mem_cons.mp hd with h | h
      · subst h; simpa using hw
      · exact hacc d h

theorem splitWS_mem {l t : List Char} (ht : t ∈ splitWS l) :
    t ≠ [] ∧ ∀ c ∈ t, c.isWhitespace = false :=
  splitWSAux_mem l [] t ht (by simp)

theorem flatMapGo_fromList (g : α → List β) :
    ∀ l : List α, flatMapGo (fun a => fromList (g a)) l none = fromList (l.flatMap g)
  | [] => by simp [flatMapGo, fromList]
  | a :: as => by
    have ih := flatMapGo_fromList g as
    simp only [fromList] at ih
    simp [flatMapGo, fromList, ih]

theorem flatMapO_fromList (g : α → List β) (l : List α) :
    flatMapO (fun a => fromList (g a)) (fromList l) = fromList (l.flatMap g) :=
  flatMapGo_fromList g l


theorem subNonWord_eq_keepWS {t : List Char} (h : ∀ c ∈ t, c.isWhitespace = false) :
    subNonWord t = subNonWordKeepWS t := by
  unfold subNonWord subNonWordKeepWS
  refine List.filter_congr ?_
  intro c hc
  rw [h c hc, Bool.or_false]

theorem wordsObsA_vals (file : List Line) :
    (wordsObsA file).vals =
      (((file.flatMap splitWS).map subNonWord).filter
        (fun w => !w.isEmpty)).map (List.map Char.toLower) := by
  unfold wordsObsA
  rw [flatMapO_fromList]
  rfl

theorem wordsObsA_err (file : List Line) : (wordsObsA file).err = none := by
  unfold wordsObsA
  rw [flatMapO_fromList]
  rfl

/-- Claim C7: the two copies of words_from_file are extensionally equal:
for every input text the 7.3A variant stripping with re.sub(r'[^\w]', '', w)
and the 7.3B/7.3C variant stripping with re.sub(r'[^\w\s]', '', w) produce
the same observable, because tokens made by str.split() contain no
whitespace, on which the two substitutions agree. -/
theorem words_copies_agree (file : List Line) : wordsObsA file = wordsObsB file := by
  unfold wordsObsA wordsObsB
  rw [flatMapO_fromList]
  have hmap : (file.flatMap splitWS).map subNonWord
      = (file.flatMap splitWS).map subNonWordKeepWS := by
    refine List.map_congr_left ?_
    intro t ht
    rcases List.mem_flatMap.mp ht with ⟨line, _, htl⟩
    exact subNonWord_eq_keepWS (splitWS_mem htl).2
  simp [mapO, filterO, fromList, hmap]


/-- Claim C2 (amended): every value emitted by words_from_file is a
nonempty word of regex word-class characters, lowercased: each character
is alphanumeric or an underscore, none is an uppercase letter and none is
whitespace. -/
theorem words_are_clean (file : List Line) :
    ((wordsObsA file).vals.all fun w =>
      !w.isEmpty && w.all fun c =>
        (c.isAlphanum || c == '_') && !c.isUpper && !c.isWhitespace) = true := by
  rw [wordsObsA_vals, List.all_eq_true]
  intro w hw
  rcases List.mem_map.mp hw with ⟨u, hu, rfl⟩
  rcases List.mem_filter.mp hu with ⟨humem, hune⟩
  rcases List.mem_map.mp humem with ⟨t, _, rfl⟩
  rw [Bool.and_eq_true]
  constructor
  · simpa using fun h => by simp [h] at hune
  · rw [List.all_eq_true]
    intro c hc
    rcases List.mem_map.mp hc with ⟨d, hd, rfl⟩
    have hdw : (d.isAlphanum || d == '_') = true := (List.mem_filter.mp hd).2
    simp [toLower_wordChar hdw, toLower_not_upper, toLower_wordChar_not_ws hdw]

/-- Claim C4 (amended): the glue code does enforce one validation
constraint on the transient values: every stripped line delivered by
read_lines and every cleaned token delivered by words_from_file is
nonempty, because both pipelines filter out empty strings. -/
theorem nonempty_enforced (file : List Line) :
    ((readLinesObs file).vals.all fun l => !l.isEmpty) = true ∧
      ((wordsObsA file).vals.all fun w => !w.isEmpty) = true := by
  constructor
  · rw [List.all_eq_true]
    intro l hl
    have : l ∈ List.filter (fun l => !l.isEmpty) ((fromList file).vals.map stripL) := hl
    exact (List.mem_filter.mp this).2
  · rw [wordsObsA_vals, List.all_eq_true]
    intro w hw
    rcases List.mem_map.mp hw with ⟨u, hu, rfl⟩
    rcases List.mem_filter.mp hu with ⟨_, hune⟩
    simpa using fun h => by simp [h] at hune


theorem flatMapGo_openAsObs_err (fs : FileSys) :
    ∀ (paths : List String) (e : Option String),
      (paths.any fun p => (fs p).isNone) = true →
      (flatMapGo (openAsObs fs) paths e).err.isSome = true
  | [], e => by simp
  | a :: as, e => by
    intro h
    rw [flatMapGo]
    cases hfa : fs a with
    | none => simp [openAsObs, openFile, hfa]
    | some lines =>
      have h2 : (as.any fun p => (fs p).isNone) = true := by
        rcases List.any_eq_true.mp h with ⟨p, hp, hpt⟩
        rcases List.mem_cons.mp hp with rfl | hpas
        · rw [hfa] at hpt; simp at hpt
        · exact List.any_eq_true.mpr ⟨p, hpas, hpt⟩
      simp only [openAsObs, openFile, hfa, fromList]
      exact flatMapGo_openAsObs_err fs as e h2

theorem pipeline71C_err (fs : FileSys) (folder : String) (cs : List FSEntry) :
    (pipeline71C fs folder cs).err
      = (flatMapGo (openAsObs fs) (txtPipeline folder cs).vals none).err := rfl

/-- Claim C3 (amended): in 7.1C a failure to open a matched file arises
inside the flat_map selector and is delivered to the on_error callback,
never escaping the pipeline; but in 7.1A and 7.3A the file is opened
before any observable exists, so an open failure escapes to the caller as
a raised exception and reaches no callback. -/
theorem open_failures (fs : FileSys) (name folder : String) (cs : List FSEntry) :
    (fs name = none →
      read_lines fs name = Except.error ("No such file or directory: " ++ name) ∧
        words_from_file fs name = Except.error ("No such file or directory: " ++ name))
    ∧ (((txtPipeline folder cs).vals.any fun p => (fs p).isNone) = true →
        (pipeline71C fs folder cs).err.isSome = true) := by
  constructor
  · intro h
    constructor
    · unfold read_lines openFile
      rw [h]
      rfl
    · unfold words_from_file openFile
      rw [h]
      rfl
  · intro h
    rw [pipeline71C_err]
    exact flatMapGo_openAsObs_err fs (txtPipeline folder cs).vals none h


theorem walkEmits_eq (folder : String) (cs : List FSEntry) :
    walkEmits folder cs = levelPaths folder cs ++ emitsL folder cs := by
  simp [walkEmits, walk, emitsL, levelPaths, triplePaths]

theorem emitsL_nil (root : String) : emitsL root [] = [] := rfl

theorem emitsL_file (root : String) (n : String) (cs : List FSEntry) :
    emitsL root (.file n :: cs) = emitsL root cs := by
  simp [emitsL, walkL, walkE]

theorem emitsL_dir (root n : String) (sub cs : List FSEntry) :
    emitsL root (.dir n sub :: cs)
      = (levelPaths (pjoin root n) sub ++ emitsL (pjoin root n) sub) ++ emitsL root cs := by
  simp [emitsL, walkL, walkE, levelPaths, triplePaths]

theorem dirNames_file (n : String) (cs : List FSEntry) :
    dirNames (.file n :: cs) = dirNames cs := by simp [dirNames]

theorem dirNames_dir (n : String) (sub cs : List FSEntry) :
    dirNames (.dir n sub :: cs) = n :: dirNames cs := by simp [dirNames]

theorem fileNames_file (n : String) (cs : List FSEntry) :
    fileNames (.file n :: cs) = n :: fileNames cs := by simp [fileNames]

theorem fileNames_dir (n : String) (sub cs : List FSEntry) :
    fileNames (.dir n sub :: cs) = fileNames cs := by simp [fileNames]

theorem level_emitsL_perm : ∀ (root : String) (cs : List FSEntry),
    (levelPaths root cs ++ emitsL root cs).Perm (dirsL root cs ++ filesL root cs)
  | root, [] => by simp [levelPaths, emitsL_nil, dirsL, filesL, dirNames, fileNames]
  | root, .file n :: cs => by
    have ih := level_emitsL_perm root cs
    rw [emitsL_file, levelPaths, dirNames_file, fileNames_file]
    rw [dirsL, filesL, dirsE, filesE]
    simp only [List.map_cons, List.nil_append]
    calc ((dirNames cs).map (pjoin root) ++ (pjoin root n :: (fileNames cs).map (pjoin root)))
          ++ emitsL root cs
        = (dirNames cs).map (pjoin root)
            ++ (pjoin root n :: ((fileNames cs).map (pjoin root) ++ emitsL root cs)) := by
          simp
      _ ~ pjoin root n
            :: ((dirNames cs).map (pjoin root)
              ++ ((fileNames cs).map (pjoin root) ++ emitsL root cs)) := List.perm_middle
      _ ~ pjoin root n :: (dirsL root cs ++ filesL root cs) := by
          refine List.Perm.cons _ ?_
          simpa [levelPaths] using ih
      _ ~ dirsL root cs ++ (pjoin root n :: filesL root cs) := List.perm_middle.symm
  | root, .dir n sub :: cs => by
    have ih1 := level_emitsL_perm (pjoin root n) sub
    have ih2 := level_emitsL_perm root cs
    rw [emitsL_dir, levelPaths, dirNames_dir, fileNames_dir]
    rw [dirsL, filesL, dirsE, filesE]
    simp only [List.map_cons, List.cons_append, List.append_assoc]
    refine List.Perm.cons _ ?_
    calc (dirNames cs).map (pjoin root)
          ++ ((fileNames cs).map (pjoin root)
            ++ (levelPaths (pjoin root n) sub ++ (emitsL (pjoin root n) sub ++ emitsL root cs)))
        = ((dirNames cs).map (pjoin root) ++ (fileNames cs).map (pjoin root))
            ++ ((levelPaths (pjoin root n) sub ++ emitsL (pjoin root n) sub) ++ emitsL root cs) := by
          simp
      _ ~ (((levelPaths (pjoin root n) sub ++ emitsL (pjoin root n) sub))
            ++ ((dirNames cs).map (pjoin root) ++ (fileNames cs).map (pjoin root)))
              ++ emitsL root cs := by
          calc ((dirNames cs).map (pjoin root) ++ (fileNames cs).map (pjoin root))
                ++ ((levelPaths (pjoin root n) sub ++ emitsL (pjoin root n) sub) ++ emitsL root cs)
              = (((dirNames cs).map (pjoin root) ++ (fileNames cs).map (pjoin root))
                  ++ (levelPaths (pjoin root n) sub ++ emitsL (pjoin root n) sub)) ++ emitsL root cs := by
                simp
            _ ~ _ := List.Perm.append_right _ List.perm_append_comm
      _ = (levelPaths (pjoin root n) sub ++ emitsL (pjoin root n) sub)
            ++ (((dirNames cs).map (pjoin root) ++ (fileNames cs).map (pjoin root))
              ++ emitsL root cs) := by
          simp
      _ ~ (dirsL (pjoin root n) sub ++ filesL (pjoin root n) sub)
            ++ (dirsL root cs ++ filesL root cs) := by
          refine List.Perm.append ih1 ?_
          simpa [levelPaths] using ih2
      _ = dirsL (pjoin root n) sub
            ++ ((filesL (pjoin root n) sub ++ dirsL root cs) ++ filesL root cs) := by
          simp
      _ ~ dirsL (pjoin root n) sub
            ++ ((dirsL root cs ++ filesL (pjoin root n) sub) ++ filesL root cs) :=
          List.Perm.append_left _ (List.Perm.append_right _ List.perm_append_comm)
      _ = dirsL (pjoin root n) sub
            ++ (dirsL root cs ++ (filesL (pjoin root n) sub ++ filesL root cs)) := by
          simp


/-- Claim C1 (amended): every value emitted by
recursive_files_in_directory(folder) is the path of a directory or file in
the tree rooted at folder -- the emissions are a permutation of all the
directory and file paths -- and the composed pipeline with the suffix
filter delivers exactly the emitted paths ending in ".txt" (whether of
files or of directories), followed by a single completion. -/
theorem walker_emits_all_entries (folder : String) (cs : List FSEntry) :
    (walkEmits folder cs).Perm (dirsL folder cs ++ filesL folder cs)
    ∧ eventsOf (txtPipeline folder cs)
        = ((walkEmits folder cs).filter endsTxt).map Ev.onNext ++ [Ev.onCompleted]
    ∧ ((walkEmits folder cs).filter endsTxt).Perm
        ((dirsL folder cs ++ filesL folder cs).filter endsTxt) := by
  have h : (walkEmits folder cs).Perm (dirsL folder cs ++ filesL folder cs) := by
    rw [walkEmits_eq]
    exact level_emitsL_perm folder cs
  exact ⟨h, rfl, h.filter endsTxt⟩

theorem mem_firstOccurAux [DecidableEq α] :
    ∀ (l seen : List α) (x : α), x ∈ firstOccurAux seen l ↔ x ∈ l ∧ x ∉ seen
  | [], seen, x => by simp [firstOccurAux]
  | a :: as, seen, x => by
    rw [firstOccurAux]
    by_cases ha : a ∈ seen
    · rw [if_pos ha, mem_firstOccurAux as seen x]
      constructor
      · rintro ⟨h1, h2⟩
        exact ⟨List.mem_cons_of_mem a h1, h2⟩
      · rintro ⟨h1, h2⟩
        rcases List.mem_cons.mp h1 with rfl | h1
        · exact absurd ha h2
        · exact ⟨h1, h2⟩
    · rw [if_neg ha]
      rw [List.mem_cons, mem_firstOccurAux as (a :: seen) x]
      constructor
      · rintro (rfl | ⟨h1, h2⟩)
        · exact ⟨by simp, ha⟩
        · exact ⟨List.mem_cons_of_mem a h1, fun hx => h2 (List.mem_cons_of_mem a hx)⟩
      · rintro ⟨h1, h2⟩
        by_cases hxa : x = a
        · exact Or.inl hxa
        · rcases List.mem_cons.mp h1 with rfl | h1
          · exact Or.inl rfl
          · exact Or.inr ⟨h1, fun hx => by
              rcases List.mem_cons.mp hx with h | h
              · exact hxa h
              · exact h2 h⟩

theorem nodup_firstOccurAux [DecidableEq α] :
    ∀ (l seen : List α), (firstOccurAux seen l).Nodup
  | [], seen => by simp [firstOccurAux]
  | a :: as, seen => by
    rw [firstOccurAux]
    by_cases ha : a ∈ seen
    · rw [if_pos ha]
      exact nodup_firstOccurAux as seen
    · rw [if_neg ha]
      refine List.Nodup.cons ?_ (nodup_firstOccurAux as (a :: seen))
      intro hmem
      exact ((mem_firstOccurAux as (a :: seen) a).mp hmem).2 (List.mem_cons_self a seen)

theorem mem_firstOccur [DecidableEq α] {l : List α} {x : α} :
    x ∈ firstOccur l ↔ x ∈ l := by
  rw [firstOccur, mem_firstOccurAux]
  simp

theorem nodup_firstOccur [DecidableEq α] (l : List α) : (firstOccur l).Nodup :=
  nodup_firstOccurAux l []

theorem firstOccur_perm_dedup [DecidableEq α] (l : List α) :
    (firstOccur l).Perm l.dedup := by
  rw [List.perm_ext_iff_of_nodup (nodup_firstOccur l) (List.nodup_dedup l)]
  intro a
  rw [mem_firstOccur, List.mem_dedup]


theorem word_counter_pairs [DecidableEq α] (l : List α) :
    word_counter l = (firstOccur l).map fun k => (k, l.count k) := by
  unfold word_counter groupByKey
  rw [List.map_map]
  refine List.map_congr_left ?_
  intro k _
  simp [Function.comp, List.count_eq_countP, List.countP_eq_length_filter]

theorem word_counter_keys [DecidableEq α] (l : List α) :
    (word_counter l).map Prod.fst = firstOccur l := by
  rw [word_counter_pairs, List.map_map]
  exact List.map_id'' (fun x => rfl) _

theorem dictOf_skip [DecidableEq α] :
    ∀ (pairs : List (α × β)) (acc : Option β) (k : α),
      (∀ p ∈ pairs, p.1 ≠ k) →
      pairs.foldl (fun acc p => if p.1 == k then some p.2 else acc) acc = acc
  | [], acc, k => by intro _; rfl
  | p :: ps, acc, k => by
    intro h
    rw [List.foldl_cons]
    rw [if_neg (by simpa using h p (by simp))]
    exact dictOf_skip ps acc k fun q hq => h q (List.mem_cons_of_mem p hq)

theorem dictOf_mem [DecidableEq α] :
    ∀ (pairs : List (α × β)) (k : α) (v : β),
      (pairs.map Prod.fst).Nodup → (k, v) ∈ pairs → dictOf pairs k = some v
  | [], k, v => by intro _ h; simp at h
  | (a, b) :: ps, k, v => by
    intro hnd hmem
    have hnd2 : (ps.map Prod.fst).Nodup := (List.nodup_cons.mp hnd).2
    have hna : a ∉ ps.map Prod.fst := (List.nodup_cons.mp hnd).1
    unfold dictOf
    rw [List.foldl_cons]
    by_cases hak : a = k
    · subst hak
      rw [if_pos (by simp)]
      have hv : v = b := by
        rcases List.mem_cons.mp hmem with h | h
        · injection h with h1 h2
        · exact absurd (List.mem_map_of_mem Prod.fst h) hna
      subst hv
      exact dictOf_skip ps (some v) a fun q hq hqa =>
        hna (hqa ▸ List.mem_map_of_mem Prod.fst hq)
    · rw [if_neg (by simpa using hak)]
      rcases List.mem_cons.mp hmem with h | h
      · have hka : k = a := by simpa using congrArg Prod.fst h
        exact absurd hka.symm hak
      · exact dictOf_mem ps k v hnd2 h

theorem dictOf_not_mem [DecidableEq α] (pairs : List (α × β)) (k : α)
    (h : ∀ p ∈ pairs, p.1 ≠ k) : dictOf pairs k = none :=
  dictOf_skip pairs none k h

/-- Claim C6: word_counter emits exactly one pair per distinct word --
the keys are distinct and are exactly the distinct input words -- pairing
each word with its number of occurrences; the counts sum to the length of
the token sequence, and word_counter_as_dict maps each distinct word to
its count and any absent word to nothing. -/
theorem word_counts {α : Type} [DecidableEq α] (ts : List α) :
    ((word_counter ts).map Prod.fst).Nodup
    ∧ (∀ k, k ∈ (word_counter ts).map Prod.fst ↔ k ∈ ts)
    ∧ (∀ p ∈ word_counter ts, p.2 = ts.count p.1)
    ∧ ((word_counter ts).map Prod.snd).sum = ts.length
    ∧ (∀ k, word_counter_as_dict ts k = if k ∈ ts then some (ts.count k) else none) := by
  refine ⟨?_, ?_, ?_, ?_, ?_⟩
  · rw [word_counter_keys]
    exact nodup_firstOccur ts
  · intro k
    rw [word_counter_keys]
    exact mem_firstOccur
  · intro p hp
    rw [word_counter_pairs] at hp
    rcases List.mem_map.mp hp with ⟨k, _, rfl⟩
    rfl
  · rw [word_counter_pairs, List.map_map]
    have h1 : (Prod.snd ∘ fun k => (k, ts.count k)) = fun k => ts.count k := rfl
    rw [h1]
    rw [List.Perm.sum_eq ((firstOccur_perm_dedup ts).map fun k => ts.count k)]
    exact List.sum_map_count_dedup_eq_length ts
  · intro k
    by_cases hk : k ∈ ts
    · rw [if_pos hk]
      refine dictOf_mem _ k (ts.count k) ?_ ?_
      · rw [word_counter_keys]
        exact nodup_firstOccur ts
      · rw [word_counter_pairs]
        exact List.mem_map_of_mem _ (mem_firstOccur.mpr hk)
    · rw [if_neg hk]
      refine dictOf_not_mem _ k ?_
      intro p hp hpk
      have h1 : p.1 ∈ (word_counter ts).map Prod.fst := List.mem_map_of_mem Prod.fst hp
      rw [word_counter_keys, mem_firstOccur] at h1
      exact hk (hpk ▸ h1)

/-- Claim C1, as stated, is false: the walker also emits directory paths,
and a directory whose name ends in ".txt" even passes the suffix filter. -/
theorem walker_emits_directories :
    ("r/sub" ∈ walkEmits "r" [FSEntry.dir "sub" []]
      ∧ "r/sub" ∉ filesL "r" [FSEntry.dir "sub" []])
    ∧ ("r/sub.txt" ∈ (txtPipeline "r" [FSEntry.dir "sub.txt" []]).vals
      ∧ "r/sub.txt" ∉ filesL "r" [FSEntry.dir "sub.txt" []]) := by decide

/-- Claim C2, as stated, is false: the underscore is kept by
re.sub(r'[^\w]', '', w), so the emitted word a_b contains a character that
is not alphanumeric. -/
theorem words_keep_underscore :
    (wordsObsA [['a', '_', 'b']]).vals = [['a', '_', 'b']]
    ∧ '_' ∈ ['a', '_', 'b'] ∧ '_'.isAlphanum = false := by decide

/-- Claim C3, as stated, is false: in 7.1A and 7.3A an unopenable file is
a raised exception escaping to the caller, delivered to no callback. -/
theorem open_failure_escapes :
    read_lines (fun _ => none) "bbc.txt"
        = Except.error "No such file or directory: bbc.txt"
    ∧ words_from_file (fun _ => none) "bbc.txt"
        = Except.error "No such file or directory: bbc.txt" := ⟨rfl, rfl⟩

/-- Claim C3 witness: at a file system with no files, read_lines raises
and the 7.1C pipeline turns the open failure into an error signal. -/
theorem open_failures_witness :
    read_lines (fun _ => none) "bbc_news_article.txt"
        = Except.error "No such file or directory: bbc_news_article.txt"
    ∧ (pipeline71C (fun _ => none) "r" [FSEntry.file "a.txt"]).err.isSome = true := by
  have h := open_failures (fun _ => none) "bbc_news_article.txt" "r" [FSEntry.file "a.txt"]
  exact ⟨(h.1 rfl).1, h.2 (by decide)⟩

/-- Claim C4, as stated, is false: a whitespace-only line and a
symbols-only token are dropped and never reach the subscriber. -/
theorem empty_values_dropped :
    (readLinesObs [[' ', ' ']]).vals = [] ∧ ([' ', ' '] : Line) ≠ []
    ∧ (wordsObsA [['+', '+']]).vals = [] ∧ (['+', '+'] : Line) ≠ [] := by decide

/-- Claim C5: the 5.3B pipeline emits exactly one value -- the sum 216 of
the list elements strictly below 100 -- and then completes. -/
theorem reduce_emits_single_sum :
    eventsOf pipeline53B = [Ev.onNext 216, Ev.onCompleted]
    ∧ (216 : Int)
        = (([4, 76, 22, 66, 881, 13, 35] : List Int).filter (fun i => i < 100)).sum := by
  decide

/-- Claim C6 witness: on the token sequence [1, 2, 1] the keys are
distinct, the pair (1, 2) carries the occurrence count of 1, the counts
sum to the sequence length, and the dict maps 1 to 2. -/
theorem word_counts_witness :
    ((word_counter ([1, 2, 1] : List Nat)).map Prod.fst).Nodup
    ∧ ((1, 2) : Nat × Nat).2 = ([1, 2, 1] : List Nat).count ((1, 2) : Nat × Nat).1
    ∧ ((word_counter ([1, 2, 1] : List Nat)).map Prod.snd).sum = 3
    ∧ word_counter_as_dict ([1, 2, 1] : List Nat) 1 = some 2 := by
  have h := word_counts ([1, 2, 1] : List Nat)
  refine ⟨h.1, h.2.2.1 (1, 2) (by decide), by simpa using h.2.2.2.1, ?_⟩
  have h2 := h.2.2.2.2 1
  simpa using h2

/-- Claim C8: zipping the six letters with Observable.range(1,5) emits
exactly the five pairs A-1 through E-5 in order and completes; the output
length is the minimum of the source lengths, the letter F appears in no
emission, and the zip consumes only the first five letters. -/
theorem zip_truncates_to_shorter :
    eventsOf pipeline62C
        = [Ev.onNext "A-1", Ev.onNext "B-2", Ev.onNext "C-3", Ev.onNext "D-4",
           Ev.onNext "E-5", Ev.onCompleted]
    ∧ pipeline62C.vals.length = min letters62C.length (rangeO 1 5).vals.length
    ∧ (pipeline62C.vals.all fun s => !(s.toList.contains 'F')) = true
    ∧ List.zipWith fmtPair letters62C (rangeO 1 5).vals
        = List.zipWith fmtPair (letters62C.take 5) (rangeO 1 5).vals := by
  decide

/-- Claim C9: every example script that subscribes to a timer-driven
observable blocks the main thread later in the script, by a sleep or a
blocking read from standard input. -/
theorem timer_scripts_block :
    (allScripts.all fun s => !usesTimer s || blocksAfterTimerSub s.stmts) = true := by
  decide

/-- Claim C10: lines 40 to 43 of 7.3C as written are not a well-formed
statement chain -- the flat_map line lacks its continuation backslash, so
a logical line begins with a dot -- while restoring the backslash makes
the chain well formed. -/
theorem missing_backslash_73C :
    chainWellFormed lines73C = false ∧ chainWellFormed lines73Cfixed = true := by
  decide

end RxRepo
